import Mathlib

set_option maxRecDepth 40000

/-!
Shallow embedding of the crusty-json pipeline: the lexer of src/lexer.rs and
the recursive-descent parser of src/parser.rs, with theorems checking the
specification's claims about them.

Modelling conventions:
* Rust strings are `String`/`List Char`; the lexer walks the character list.
* The lexer's main loop and the parser's mutually recursive routines take an
  explicit fuel argument so that every definition is structurally recursive
  and kernel-computable.  Fuel ticks once per loop iteration / call, each of
  which consumes input, so the top-level entry points supply enough fuel for
  the exhaustion branches to be unreachable; those branches return an error.
* Rust iterators become explicit state passing: a parsing routine receives the
  token list and returns the unconsumed suffix next to its result.
-/

namespace CrustyJson

/-- JsonToken of src/lexer.rs: one lexical unit.  The literal-carrying
variants keep the raw captured text, unvalidated, exactly as the source. -/
inductive JsonToken where
  | string (s : String)
  | number (s : String)
  | boolean (s : String)
  | null (s : String)
  | openCurlyBracket
  | closeCurlyBracket
  | openSquareBracket
  | closeSquareBracket
  | colon
  | comma
deriving DecidableEq

/-- JsonTokenError of src/lexer.rs: the two lexing failure kinds. -/
inductive JsonTokenError where
  | ExpectedEndOfString
  | InvalidToken (c : Char)
deriving DecidableEq

/-- is_number_char of src/lexer.rs:25-30. -/
def is_number_char (c : Char) : Bool :=
  match c with
  | '-' | '.' | '0' | '1' | '2' | '3' | '4' | '5' | '6' | '7' | '8' | '9' => true
  | _ => false

/-- check_end_of_token_value of src/lexer.rs:32-39: the three characters that
properly terminate a number run, each giving its structural token. -/
def check_end_of_token_value (c : Char) : Option JsonToken :=
  match c with
  | ',' => some .comma
  | '\x7d' => some .closeCurlyBracket
  | ']' => some .closeSquareBracket
  | _ => none

/-- The inner while-loop of the string branch of lexer (src/lexer.rs:66-83):
consume characters verbatim until a closing quote.  `some (s, rest)` is the
captured text and the characters after the closing quote; `none` models
falling out of the loop with done = false (unterminated string). -/
def lexString : List Char → Option (List Char × List Char)
  | [] => none
  | c :: cs =>
    if c = '\"' then some ([], cs)
    else
      match lexString cs with
      | some (s, rest) => some (c :: s, rest)
      | none => none

/-- The fixed-count capture loops of the f/t/n branches of lexer
(src/lexer.rs:85-131): take up to n further characters, fewer if the input
ends first, returning them with the unconsumed rest. -/
def takeUpTo : Nat → List Char → List Char × List Char
  | 0, cs => ([], cs)
  | _ + 1, [] => ([], [])
  | n + 1, c :: cs =>
    let (s, rest) := takeUpTo n cs
    (c :: s, rest)

/-- The number-run loop of lexer (src/lexer.rs:136-146): greedily consume
number-class characters; at the first other character, a terminator from
check_end_of_token_value ends the run carrying that token, anything else is
InvalidToken; the input ending simply ends the run. -/
def lexNumber : List Char → Except JsonTokenError (List Char × Option JsonToken × List Char)
  | [] => .ok ([], none, [])
  | c :: cs =>
    if is_number_char c then
      match lexNumber cs with
      | .ok (s, t, rest) => .ok (c :: s, t, rest)
      | .error e => .error e
    else
      match check_end_of_token_value c with
      | some t => .ok ([], some t, cs)
      | none => .error (.InvalidToken c)

/-- The main loop of lexer (src/lexer.rs:41-163), one fuel tick per
iteration.  Each iteration consumes at least the current character, so fuel
equal to the input length (as `lexer` supplies) makes the fuel-zero branch
unreachable; that branch returns InvalidToken of the current character. -/
def lexChars : Nat → List Char → Except JsonTokenError (List JsonToken)
  | _, [] => .ok []
  | 0, c :: _ => .error (.InvalidToken c)
  | fuel + 1, c :: cs =>
    match c with
    | '\x7b' => (lexChars fuel cs).map (.openCurlyBracket :: ·)
    | '\x7d' => (lexChars fuel cs).map (.closeCurlyBracket :: ·)
    | '[' => (lexChars fuel cs).map (.openSquareBracket :: ·)
    | ']' => (lexChars fuel cs).map (.closeSquareBracket :: ·)
    | ':' => (lexChars fuel cs).map (.colon :: ·)
    | ',' => (lexChars fuel cs).map (.comma :: ·)
    | '\"' =>
      match lexString cs with
      | none => .error .ExpectedEndOfString
      | some (s, rest) => (lexChars fuel rest).map (.string (String.mk s) :: ·)
    | 'f' =>
      let (s, rest) := takeUpTo 4 cs
      (lexChars fuel rest).map (.boolean (String.mk ('f' :: s)) :: ·)
    | 't' =>
      let (s, rest) := takeUpTo 3 cs
      (lexChars fuel rest).map (.boolean (String.mk ('t' :: s)) :: ·)
    | 'n' =>
      let (s, rest) := takeUpTo 3 cs
      (lexChars fuel rest).map (.null (String.mk ('n' :: s)) :: ·)
    | _ =>
      if is_number_char c then
        match lexNumber cs with
        | .error e => .error e
        | .ok (s, endTok, rest) =>
          (lexChars fuel rest).map fun ts =>
            .number (String.mk (c :: s)) ::
              (match endTok with
               | some t => t :: ts
               | none => ts)
      else if c = ' ' ∨ c = '\n' ∨ c = '\t' then
        lexChars fuel cs
      else
        .error (.InvalidToken c)

/-- lexer of src/lexer.rs:41-163: tokenize a raw string. -/
def lexer (raw : String) : Except JsonTokenError (List JsonToken) :=
  lexChars raw.data.length raw.data

/-- Outcome of Rust `str::parse::<f64>()` as parse_value (src/parser.rs:58)
calls it, classified.  `finite m e` stands for the exact decimal value
m * 10 ^ e in canonical form (m not divisible by 10; m = 0 forces e = 0).
The IEEE-754 nearest rounding of in-range values is not modelled — the
payload keeps the exact decimal — but the finite/infinite classification
matches binary64: magnitudes at or above 2 ^ 1024 - 2 ^ 970 (the rounding
boundary beyond the largest finite double) overflow to `inf`.  NaN payload
bits and the signs of NaN and zero are dropped (f64 PartialEq ignores the
sign of zero). -/
inductive F64 where
  | finite (m : Int) (e : Int)
  | inf (neg : Bool)
  | nan
deriving DecidableEq

/-- Value of a (most-significant-first) list of decimal digit characters. -/
def digitsToNat (cs : List Char) : Nat :=
  cs.foldl (fun a c => 10 * a + (c.toNat - '0'.toNat)) 0

/-- Split off the leading run of ASCII decimal digits. -/
def spanDigits : List Char → List Char × List Char
  | [] => ([], [])
  | c :: cs =>
    if c.isDigit then
      let (d, r) := spanDigits cs
      (c :: d, r)
    else ([], c :: cs)

/-- Strip factors of 10 from the mantissa into the exponent; fuel bounds the
iteration count (any fuel at least the number of trailing zeros, e.g. the
mantissa itself, gives the canonical form). -/
def canonSci : Nat → Nat → Int → Nat × Int
  | 0, m, e => (m, e)
  | fuel + 1, m, e => if m % 10 = 0 ∧ m ≠ 0 then canonSci fuel (m / 10) (e + 1) else (m, e)

/-- Smallest magnitude that binary64 round-to-nearest-even sends to
infinity. -/
def f64Boundary : Nat := 2 ^ 1024 - 2 ^ 970

/-- Whether the decimal m * 10 ^ e reaches the binary64 overflow boundary. -/
def f64Overflow (m : Nat) (e : Int) : Bool :=
  if 0 ≤ e then f64Boundary ≤ m * 10 ^ e.toNat
  else f64Boundary * 10 ^ (-e).toNat ≤ m

/-- Build the F64 for sign `neg`, mantissa digits `digits`, of which the last
`fracLen` sit after the decimal point, and exponent part `ex`. -/
def mkF64 (neg : Bool) (digits : List Char) (fracLen : Nat) (ex : Int) : F64 :=
  let m0 := digitsToNat digits
  if f64Overflow m0 (ex - fracLen) then .inf neg
  else if m0 = 0 then .finite 0 0
  else
    let me := canonSci m0 m0 (ex - fracLen)
    .finite (if neg then -(me.1 : Int) else (me.1 : Int)) me.2

/-- The exponent tail after an e/E marker: optional sign then at least one
digit, which must exhaust the input. -/
def parseExpDigits (cs : List Char) : Option Int :=
  let sgn : Bool × List Char :=
    match cs with
    | '+' :: r => (false, r)
    | '-' :: r => (true, r)
    | _ => (false, cs)
  let ds := spanDigits sgn.2
  if ds.1 = [] ∨ ds.2 ≠ [] then none
  else some (if sgn.1 then -(digitsToNat ds.1 : Int) else (digitsToNat ds.1 : Int))

/-- The number form of Rust's f64 grammar after the optional sign: digits,
optional point with more digits (at least one digit in total), optional
e/E exponent; anything left over rejects. -/
def parseDecimal (neg : Bool) (cs : List Char) : Option F64 :=
  let ipr := spanDigits cs
  let fpr : List Char × List Char :=
    match ipr.2 with
    | '.' :: r => spanDigits r
    | _ => ([], ipr.2)
  if ipr.1 = [] ∧ fpr.1 = [] then none
  else
    match fpr.2 with
    | [] => some (mkF64 neg (ipr.1 ++ fpr.1) fpr.1.length 0)
    | e :: r3 =>
      if e = 'e' ∨ e = 'E' then
        match parseExpDigits r3 with
        | none => none
        | some ex => some (mkF64 neg (ipr.1 ++ fpr.1) fpr.1.length ex)
      else none

/-- Modelled from the documented behaviour of Rust core's
`impl FromStr for f64` (the standard library code parse_value calls at
src/parser.rs:58, not part of this repository): an optional sign, then
either a case-insensitive inf/infinity/nan special or a decimal number.
`none` is Err (parse_value then fails with InvalidNumberValue). -/
def parseF64Chars (cs : List Char) : Option F64 :=
  let sgn : Bool × List Char :=
    match cs with
    | '+' :: r => (false, r)
    | '-' :: r => (true, r)
    | _ => (false, cs)
  let low := sgn.2.map Char.toLower
  if low = "inf".data ∨ low = "infinity".data then some (.inf sgn.1)
  else if low = "nan".data then some .nan
  else parseDecimal sgn.1 sgn.2

/-- Rust `s.parse::<f64>()` on a Lean String. -/
def parseF64 (s : String) : Option F64 :=
  parseF64Chars s.data

/-- JsonValue of src/parser.rs:5-13.  The Rust HashMap for objects becomes an
association list with overwrite-on-insert, keeping key uniqueness; the map's
unspecified iteration order becomes the model's fixed insertion order. -/
inductive JsonValue where
  | string (s : String)
  | number (x : F64)
  | boolean (b : Bool)
  | null
  | array (xs : List JsonValue)
  | object (m : List (String × JsonValue))

/-- JsonParseError of src/parser.rs:15-43. -/
inductive JsonParseError where
  | NoTokens
  | ExpectedObjectOrArrayAsRoot (t : JsonToken)
  | ExpectedEndOfObject
  | ExpectedEndOfArray
  | ExpectedObjectKey (t : JsonToken)
  | ExpectedColonAfterKey (t : Option JsonToken)
  | ExpectedCommaOrEndOfObject (t : Option JsonToken)
  | ExpectedCommaOrEndOfArray (t : Option JsonToken)
  | InvalidValue (t : Option JsonToken)
  | InvalidNumberValue (s : String)
  | InvalidBooleanValue (s : String)
  | InvalidNullValue (s : String)
  | TrailingComma
deriving DecidableEq

/-- HashMap::insert as parse_object uses it (src/parser.rs:136): overwrite the
value under an existing key, otherwise add the binding. -/
def insertKV (m : List (String × JsonValue)) (k : String) (v : JsonValue) :
    List (String × JsonValue) :=
  match m with
  | [] => [(k, v)]
  | (k', v') :: rest => if k' = k then (k, v) :: rest else (k', v') :: insertKV rest k v

mutual

/-- parse_value of src/parser.rs:45-97.  The shared iterator becomes the token
list threaded through results.  Fuel ticks once per call; the fuel-zero
branch (unreachable under the fuel parser supplies) returns
InvalidValue none. -/
def parse_value : Nat → Option JsonToken → List JsonToken →
    Except JsonParseError (JsonValue × List JsonToken)
  | 0, _, _ => .error (.InvalidValue none)
  | fuel + 1, token, iter =>
    let pulled : Except JsonParseError (JsonToken × List JsonToken) :=
      match token, iter with
      | some v, _ => .ok (v, iter)
      | none, t :: rest => .ok (t, rest)
      | none, [] => .error (.InvalidValue none)
    match pulled with
    | .error e => .error e
    | .ok (value_token, iter) =>
      match value_token with
      | .string json_string => .ok (.string json_string, iter)
      | .number json_number =>
        match parseF64 json_number with
        | some x => .ok (.number x, iter)
        | none => .error (.InvalidNumberValue json_number)
      | .boolean json_boolean =>
        if json_boolean = "true" then .ok (.boolean true, iter)
        else if json_boolean = "false" then .ok (.boolean false, iter)
        else .error (.InvalidBooleanValue json_boolean)
      | .null json_null =>
        if json_null = "null" then .ok (.null, iter)
        else .error (.InvalidNullValue json_null)
      | .openCurlyBracket => parse_object fuel [] false iter
      | .openSquareBracket => parse_array fuel [] false iter
      | t => .error (.InvalidValue (some t))
termination_by structural fuel _ _ => fuel

/-- parse_object of src/parser.rs:99-165, its while-loop as recursion: one
fuel tick per call, the accumulated map and the comma_after_value flag as
arguments.  Running out of tokens mid-loop is the done = false exit,
ExpectedEndOfObject; the fuel-zero branch (unreachable under the fuel parser
supplies) returns the same error. -/
def parse_object : Nat → List (String × JsonValue) → Bool → List JsonToken →
    Except JsonParseError (JsonValue × List JsonToken)
  | 0, _, _, _ => .error .ExpectedEndOfObject
  | fuel + 1, obj, comma_after_value, iter =>
    match iter with
    | [] => .error .ExpectedEndOfObject
    | token :: rest =>
      if token = .closeCurlyBracket then
        if comma_after_value then .error .TrailingComma
        else .ok (.object obj, rest)
      else
        match token with
        | .string json_string =>
          match rest with
          | [] => .error (.ExpectedColonAfterKey none)
          | t :: rest2 =>
            if t = .colon then
              match parse_value fuel none rest2 with
              | .error e => .error e
              | .ok (value, rest3) =>
                let obj2 := insertKV obj json_string value
                match rest3 with
                | [] => .error (.ExpectedCommaOrEndOfObject none)
                | t2 :: rest4 =>
                  match t2 with
                  | .comma => parse_object fuel obj2 true rest4
                  | .closeCurlyBracket => .ok (.object obj2, rest4)
                  | t2 => .error (.ExpectedCommaOrEndOfObject (some t2))
            else .error (.ExpectedColonAfterKey (some t))
        | token => .error (.ExpectedObjectKey token)
termination_by structural fuel _ _ _ => fuel

/-- parse_array of src/parser.rs:167-213, its while-loop as recursion,
symmetric to parse_object without keys: the current token is handed to
parse_value as the already-pulled token. -/
def parse_array : Nat → List JsonValue → Bool → List JsonToken →
    Except JsonParseError (JsonValue × List JsonToken)
  | 0, _, _, _ => .error .ExpectedEndOfArray
  | fuel + 1, arr, comma_after_value, iter =>
    match iter with
    | [] => .error .ExpectedEndOfArray
    | token :: rest =>
      if token = .closeSquareBracket then
        if comma_after_value then .error .TrailingComma
        else .ok (.array arr, rest)
      else
        match parse_value fuel (some token) rest with
        | .error e => .error e
        | .ok (value, rest2) =>
          let arr2 := arr ++ [value]
          match rest2 with
          | [] => .error (.ExpectedCommaOrEndOfArray none)
          | t :: rest3 =>
            match t with
            | .comma => parse_array fuel arr2 true rest3
            | .closeSquareBracket => .ok (.array arr2, rest3)
            | t => .error (.ExpectedCommaOrEndOfArray (some t))
termination_by structural fuel _ _ _ => fuel

end

/-- parser of src/parser.rs:215-235: the root must open an object or array;
the value built by the object/array rule is returned and any tokens left
after it are dropped.  Two fuel ticks per token plus a margin is more than
any run can use, since every tick follows the consumption of a token. -/
def parser (tokens : List JsonToken) : Except JsonParseError JsonValue :=
  match tokens with
  | [] => .error .NoTokens
  | first_token :: rest =>
    match first_token with
    | .openCurlyBracket => (parse_object (2 * tokens.length + 2) [] false rest).map Prod.fst
    | .openSquareBracket => (parse_array (2 * tokens.length + 2) [] false rest).map Prod.fst
    | t => .error (.ExpectedObjectOrArrayAsRoot t)

/-! Helper lemmas about the lexer's scanning loops. -/

theorem lexChars_nil (fuel : Nat) : lexChars fuel [] = .ok [] := by
  cases fuel <;> rfl

theorem lexString_append (s rest : List Char) (h : ∀ c ∈ s, c ≠ '\"') :
    lexString (s ++ '\"' :: rest) = some (s, rest) := by
  induction s with
  | nil => simp [lexString]
  | cons c cs ih =>
    have hc : c ≠ '\"' := h c (List.mem_cons_self c cs)
    simp [lexString, hc, ih (fun x hx => h x (List.mem_cons_of_mem c hx))]

theorem lexString_no_quote (s : List Char) (h : ∀ c ∈ s, c ≠ '\"') :
    lexString s = none := by
  induction s with
  | nil => rfl
  | cons c cs ih =>
    have hc : c ≠ '\"' := h c (List.mem_cons_self c cs)
    simp [lexString, hc, ih (fun x hx => h x (List.mem_cons_of_mem c hx))]

theorem takeUpTo_exact (n : Nat) (s rest : List Char) (h : s.length = n) :
    takeUpTo n (s ++ rest) = (s, rest) := by
  induction n generalizing s with
  | zero =>
    cases s with
    | nil => rfl
    | cons c cs => simp at h
  | succ n ih =>
    cases s with
    | nil => simp at h
    | cons c cs =>
      have hcs : cs.length = n := by simpa using h
      simp [takeUpTo, ih cs hcs]

theorem takeUpTo_all (n : Nat) (s : List Char) (h : s.length < n) :
    takeUpTo n s = (s, []) := by
  induction n generalizing s with
  | zero => omega
  | succ n ih =>
    cases s with
    | nil => rfl
    | cons c cs =>
      have hcs : cs.length < n := by simp at h; omega
      simp [takeUpTo, ih cs hcs]

theorem is_number_char_cases {c : Char} (h : is_number_char c = true) :
    c = '-' ∨ c = '.' ∨ c = '0' ∨ c = '1' ∨ c = '2' ∨ c = '3' ∨ c = '4' ∨
    c = '5' ∨ c = '6' ∨ c = '7' ∨ c = '8' ∨ c = '9' := by
  revert h
  unfold is_number_char
  split <;> intro h
  all_goals first | decide | cases h

theorem check_end_not_number {d : Char} {t : JsonToken}
    (h : check_end_of_token_value d = some t) : is_number_char d = false := by
  revert h
  unfold check_end_of_token_value
  split <;> intro h
  all_goals first | decide | cases h

theorem lexNumber_all (s : List Char) (h : ∀ x ∈ s, is_number_char x = true) :
    lexNumber s = .ok (s, none, []) := by
  induction s with
  | nil => rfl
  | cons c cs ih =>
    simp [lexNumber, h c (List.mem_cons_self c cs),
      ih (fun x hx => h x (List.mem_cons_of_mem c hx))]

theorem lexNumber_terminator (s : List Char) (d : Char) (t : JsonToken) (rest : List Char)
    (hs : ∀ x ∈ s, is_number_char x = true) (hd : check_end_of_token_value d = some t) :
    lexNumber (s ++ d :: rest) = .ok (s, some t, rest) := by
  induction s with
  | nil => simp [lexNumber, check_end_not_number hd, hd]
  | cons c cs ih =>
    simp [lexNumber, hs c (List.mem_cons_self c cs),
      ih (fun x hx => hs x (List.mem_cons_of_mem c hx))]

theorem lexNumber_invalid (s : List Char) (d : Char) (rest : List Char)
    (hs : ∀ x ∈ s, is_number_char x = true)
    (hd1 : is_number_char d = false) (hd2 : check_end_of_token_value d = none) :
    lexNumber (s ++ d :: rest) = .error (.InvalidToken d) := by
  induction s with
  | nil => simp [lexNumber, hd1, hd2]
  | cons c cs ih =>
    simp [lexNumber, hs c (List.mem_cons_self c cs),
      ih (fun x hx => hs x (List.mem_cons_of_mem c hx))]

/-- One main-loop iteration of the lexer on a number-class character reduces
to the number branch: scan the run, then emit. -/
theorem lexChars_number_cons (fuel : Nat) (c : Char) (cs : List Char)
    (hc : is_number_char c = true) :
    lexChars (fuel + 1) (c :: cs) =
      match lexNumber cs with
      | .error e => .error e
      | .ok (s, endTok, rest) =>
        (lexChars fuel rest).map fun ts =>
          .number (String.mk (c :: s)) ::
            (match endTok with
             | some t => t :: ts
             | none => ts) := by
  rcases is_number_char_cases hc with h | h | h | h | h | h | h | h | h | h | h | h <;>
    subst h <;> rfl

/-! The claims. -/

/-- C1, counterexample: the claim says lexing the bare text "20" is a lexing
failure; in fact the source's number loop simply ends at end of input and the
Number token is emitted, so tokenizing "20" succeeds with Number("20") (the
repository's own test_number_token asserts the same for "360"). -/
theorem c1_counterexample_eof_number_lexes :
    lexer "20" = .ok [.number "20"] := rfl

/-- C1, amended: a number run stopped by a character that is neither
number-class nor a `, \x7d ]` terminator fails with InvalidToken of that
character, but a number run that reaches the end of the input with no
following character is NOT a failure: the lexer emits the Number token of the
whole run and tokenization succeeds — in particular the bare text "20" lexes
to exactly [Number "20"]. -/
theorem c1_amended_number_run_at_eof_succeeds :
    (∀ (c : Char) (s : List Char), is_number_char c = true →
        (∀ x ∈ s, is_number_char x = true) →
        lexer (String.mk (c :: s)) = .ok [.number (String.mk (c :: s))]) ∧
    lexer "20" = .ok [.number "20"] := by
  refine ⟨fun c s hc hs => ?_, rfl⟩
  show lexChars (s.length + 1) (c :: s) = _
  rw [lexChars_number_cons _ c s hc, lexNumber_all s hs]
  simp [lexChars_nil, Except.map]

/-- C4: a number run stopped by one of `, \x7d ]` emits the Number token and
then immediately that terminator's structural token; a run stopped by any
other character fails with InvalidToken of that character.  Concretely,
"[4,2]" lexes with each number followed by its terminator token, and "4 "
(number stopped by a space) fails with InvalidToken of the space. -/
theorem c4_number_run_terminators :
    (∀ (fuel : Nat) (c : Char) (s : List Char) (d : Char) (t : JsonToken)
        (rest : List Char),
        is_number_char c = true → (∀ x ∈ s, is_number_char x = true) →
        check_end_of_token_value d = some t →
        lexChars (fuel + 1) (c :: (s ++ d :: rest)) =
          (lexChars fuel rest).map fun ts =>
            .number (String.mk (c :: s)) :: t :: ts) ∧
    (∀ (fuel : Nat) (c : Char) (s : List Char) (d : Char) (rest : List Char),
        is_number_char c = true → (∀ x ∈ s, is_number_char x = true) →
        is_number_char d = false → check_end_of_token_value d = none →
        lexChars (fuel + 1) (c :: (s ++ d :: rest)) = .error (.InvalidToken d)) ∧
    lexer "[4,2]" = .ok [.openSquareBracket, .number "4", .comma, .number "2",
      .closeSquareBracket] ∧
    lexer "4 " = .error (.InvalidToken ' ') := by
  refine ⟨fun fuel c s d t rest hc hs hd => ?_, fun fuel c s d rest hc hs hd1 hd2 => ?_,
    rfl, rfl⟩
  · rw [lexChars_number_cons _ c _ hc, lexNumber_terminator s d t rest hs hd]
  · rw [lexChars_number_cons _ c _ hc, lexNumber_invalid s d rest hs hd1 hd2]

/-- C5: after a leading t (resp. f, resp. n) the lexer captures exactly 3
(resp. 4, resp. 3) further characters regardless of their content — or all
the remaining ones if the input is shorter — and emits a single Boolean
(resp. Boolean, resp. Null) token carrying the concatenated raw text, with no
spelling check; consequently "truea" fails with InvalidToken of the fifth
character a. -/
theorem c5_fixed_width_literal_capture :
    (∀ (fuel : Nat) (s rest : List Char), s.length = 3 →
        lexChars (fuel + 1) ('t' :: (s ++ rest)) =
          (lexChars fuel rest).map (.boolean (String.mk ('t' :: s)) :: ·)) ∧
    (∀ (fuel : Nat) (s : List Char), s.length < 3 →
        lexChars (fuel + 1) ('t' :: s) = .ok [.boolean (String.mk ('t' :: s))]) ∧
    (∀ (fuel : Nat) (s rest : List Char), s.length = 4 →
        lexChars (fuel + 1) ('f' :: (s ++ rest)) =
          (lexChars fuel rest).map (.boolean (String.mk ('f' :: s)) :: ·)) ∧
    (∀ (fuel : Nat) (s : List Char), s.length < 4 →
        lexChars (fuel + 1) ('f' :: s) = .ok [.boolean (String.mk ('f' :: s))]) ∧
    (∀ (fuel : Nat) (s rest : List Char), s.length = 3 →
        lexChars (fuel + 1) ('n' :: (s ++ rest)) =
          (lexChars fuel rest).map (.null (String.mk ('n' :: s)) :: ·)) ∧
    (∀ (fuel : Nat) (s : List Char), s.length < 3 →
        lexChars (fuel + 1) ('n' :: s) = .ok [.null (String.mk ('n' :: s))]) ∧
    lexer "truea" = .error (.InvalidToken 'a') := by
  refine ⟨fun fuel s rest h => ?_, fun fuel s h => ?_, fun fuel s rest h => ?_,
    fun fuel s h => ?_, fun fuel s rest h => ?_, fun fuel s h => ?_, rfl⟩ <;>
    simp only [lexChars] <;>
    first
      | rw [takeUpTo_exact _ s rest h]
      | (rw [takeUpTo_all _ s h]; simp [lexChars_nil, Except.map])

/-- C8: a quote begins a string captured verbatim (no escape processing)
until the next quote: for any quote-free s, tokenizing the text quote-s-quote
yields exactly the one token String(s); if the input ends before a closing
quote, tokenizing fails with ExpectedEndOfString. -/
theorem c8_string_capture :
    (∀ (s : List Char), (∀ c ∈ s, c ≠ '\"') →
        lexer (String.mk ('\"' :: (s ++ ['\"']))) = .ok [.string (String.mk s)]) ∧
    (∀ (s : List Char), (∀ c ∈ s, c ≠ '\"') →
        lexer (String.mk ('\"' :: s)) = .error .ExpectedEndOfString) := by
  constructor
  · intro s h
    show lexChars ((s ++ ['\"']).length + 1) ('\"' :: (s ++ ['\"'])) = _
    simp only [lexChars]
    rw [lexString_append s [] h]
    simp [lexChars_nil, Except.map]
  · intro s h
    show lexChars (s.length + 1) ('\"' :: s) = _
    simp only [lexChars]
    rw [lexString_no_quote s h]

/-! Helper lemmas about the parser's loops. -/

/-- Every successful exit of the object rule produces an object value. -/
theorem parse_object_ok_shape (fuel : Nat) :
    ∀ (obj : List (String × JsonValue)) (cav : Bool) (iter : List JsonToken)
      (v : JsonValue) (rest : List JsonToken),
      parse_object fuel obj cav iter = .ok (v, rest) → ∃ m, v = .object m := by
  induction fuel with
  | zero => intro obj cav iter v rest h; exact (Except.noConfusion h)
  | succ fuel ih =>
    intro obj cav iter v rest h
    cases iter with
    | nil => exact (Except.noConfusion h)
    | cons token rest1 =>
      simp only [parse_object] at h
      repeat' split at h
      all_goals first
        | exact Except.noConfusion h
        | exact ih _ _ _ _ _ h
        | (simp only [Except.ok.injEq, Prod.mk.injEq] at h; exact ⟨_, h.1.symm⟩)

/-- Every successful exit of the array rule produces an array value. -/
theorem parse_array_ok_shape (fuel : Nat) :
    ∀ (arr : List JsonValue) (cav : Bool) (iter : List JsonToken)
      (v : JsonValue) (rest : List JsonToken),
      parse_array fuel arr cav iter = .ok (v, rest) → ∃ xs, v = .array xs := by
  induction fuel with
  | zero => intro arr cav iter v rest h; exact (Except.noConfusion h)
  | succ fuel ih =>
    intro arr cav iter v rest h
    cases iter with
    | nil => exact (Except.noConfusion h)
    | cons token rest1 =>
      simp only [parse_array] at h
      repeat' split at h
      all_goals first
        | exact Except.noConfusion h
        | exact ih _ _ _ _ _ h
        | (simp only [Except.ok.injEq, Prod.mk.injEq] at h; exact ⟨_, h.1.symm⟩)

/-- Shape of a mapped successful object parse, as parser produces it. -/
theorem parse_object_map_shape (F : Nat) (rest : List JsonToken) (v : JsonValue)
    (h : (parse_object F [] false rest).map Prod.fst = .ok v) : ∃ m, v = .object m := by
  cases hpo : parse_object F [] false rest with
  | error e => rw [hpo] at h; exact Except.noConfusion h
  | ok p =>
    rw [hpo] at h
    simp only [Except.map] at h
    obtain ⟨m, hm⟩ := parse_object_ok_shape F [] false rest p.1 p.2 (by rw [hpo])
    cases h
    exact ⟨m, hm⟩

/-- Shape of a mapped successful array parse, as parser produces it. -/
theorem parse_array_map_shape (F : Nat) (rest : List JsonToken) (v : JsonValue)
    (h : (parse_array F [] false rest).map Prod.fst = .ok v) : ∃ xs, v = .array xs := by
  cases hpa : parse_array F [] false rest with
  | error e => rw [hpa] at h; exact Except.noConfusion h
  | ok p =>
    rw [hpa] at h
    simp only [Except.map] at h
    obtain ⟨xs, hxs⟩ := parse_array_ok_shape F [] false rest p.1 p.2 (by rw [hpa])
    cases h
    exact ⟨xs, hxs⟩

/-- C2, counterexample: the claim says a Number token whose raw text does not
parse as a FINITE double makes the parser fail, and that no parse yields an
infinite or NaN number; but Rust's f64 FromStr accepts the spelling "inf", so
the value rule maps Number("inf") to Ok(Value::Number(+infinity)) — and a
whole parse can return an infinite number. -/
theorem c2_counterexample_inf_number_accepted :
    parse_value 1 (some (.number "inf")) [] = .ok (.number (.inf false), []) ∧
    parser [.openSquareBracket, .number "inf", .closeSquareBracket] =
      .ok (.array [.number (.inf false)]) := ⟨rfl, rfl⟩

/-- C2, amended: the value rule on a Number token succeeds with Value::Number
exactly when the raw text parses as a 64-bit float under Rust's FromStr —
whose grammar also accepts the non-finite spellings inf/infinity/nan (any
case, optional sign) and sends overflowing decimals to infinity — and fails
with InvalidNumberValue carrying the raw text exactly when FromStr rejects
it; a Value::Number holding an infinite or NaN double is therefore possible
(e.g. from raw text "nan"). -/
theorem c2_amended_number_parse_via_fromstr :
    (∀ (fuel : Nat) (iter : List JsonToken) (s : String),
        parse_value (fuel + 1) (some (.number s)) iter =
          match parseF64 s with
          | some x => .ok (.number x, iter)
          | none => .error (.InvalidNumberValue s)) ∧
    parse_value 1 (some (.number "nan")) [] = .ok (.number .nan, []) ∧
    parse_value 1 (some (.number "1e999")) [] = .ok (.number (.inf false), []) ∧
    parse_value 1 (some (.number "4-.5")) [] = .error (.InvalidNumberValue "4-.5") := by
  refine ⟨fun fuel iter s => rfl, rfl, by rfl, rfl⟩

/-- C3: "20" lexes to the single token Number("20") and the value rule turns
it into Value::Number(20.0) — in the model the exact decimal 2 * 10 ^ 1;
"4-.5" lexes successfully since every one of its characters is number-class,
and parsing a sequence holding that token fails with exactly
InvalidNumberValue("4-.5"). -/
theorem c3_number_examples :
    lexer "20" = .ok [.number "20"] ∧
    parse_value 1 (some (.number "20")) [] = .ok (.number (.finite 2 1), []) ∧
    lexer "4-.5" = .ok [.number "4-.5"] ∧
    parser [.openSquareBracket, .number "4-.5"] = .error (.InvalidNumberValue "4-.5") :=
  ⟨rfl, by rfl, rfl, rfl⟩

/-- C6: in both rules a comma immediately followed by the matching closer
(the comma_after_value flag is set exactly by a just-consumed comma) fails
with TrailingComma — concretely [ null , ] fails so — while a comma followed
by a further member parses: a two-pair object succeeds. -/
theorem c6_trailing_comma :
    (∀ (fuel : Nat) (obj : List (String × JsonValue)) (rest : List JsonToken),
        parse_object (fuel + 1) obj true (.closeCurlyBracket :: rest) =
          .error .TrailingComma) ∧
    (∀ (fuel : Nat) (arr : List JsonValue) (rest : List JsonToken),
        parse_array (fuel + 1) arr true (.closeSquareBracket :: rest) =
          .error .TrailingComma) ∧
    parser [.openSquareBracket, .null "null", .comma, .closeSquareBracket] =
      .error .TrailingComma ∧
    parser [.openCurlyBracket, .string "a", .colon, .null "null", .comma,
            .string "b", .colon, .null "null", .closeCurlyBracket] =
      .ok (.object [("a", .null), ("b", .null)]) :=
  ⟨fun _ _ _ => rfl, fun _ _ _ => rfl, rfl, rfl⟩

/-- C7: parsing the empty token sequence fails with exactly NoTokens; a first
token other than the two openers fails with exactly
ExpectedObjectOrArrayAsRoot of that token; and every successful parse has an
Object or Array at the root. -/
theorem c7_root_rule :
    parser [] = .error .NoTokens ∧
    (∀ (t : JsonToken) (rest : List JsonToken),
        t ≠ .openCurlyBracket → t ≠ .openSquareBracket →
        parser (t :: rest) = .error (.ExpectedObjectOrArrayAsRoot t)) ∧
    (∀ (tokens : List JsonToken) (v : JsonValue),
        parser tokens = .ok v → (∃ m, v = .object m) ∨ (∃ xs, v = .array xs)) := by
  refine ⟨rfl, fun t rest h1 h2 => ?_, fun tokens v h => ?_⟩
  · cases t <;> first | rfl | exact absurd rfl h1 | exact absurd rfl h2
  · cases tokens with
    | nil => exact Except.noConfusion h
    | cons first_token rest =>
      cases first_token with
      | openCurlyBracket =>
        simp only [parser] at h
        exact Or.inl (parse_object_map_shape _ _ _ h)
      | openSquareBracket =>
        simp only [parser] at h
        exact Or.inr (parse_array_map_shape _ _ _ h)
      | string s => exact Except.noConfusion h
      | number s => exact Except.noConfusion h
      | boolean s => exact Except.noConfusion h
      | null s => exact Except.noConfusion h
      | closeCurlyBracket => exact Except.noConfusion h
      | closeSquareBracket => exact Except.noConfusion h
      | colon => exact Except.noConfusion h
      | comma => exact Except.noConfusion h

/-- C9: the value rule maps a Boolean token with raw text exactly "true" to
Value::Boolean(true), exactly "false" to Value::Boolean(false), and any other
raw text to InvalidBooleanValue of it; a Null token with raw text exactly
"null" goes to Value::Null and any other raw text to InvalidNullValue of
it. -/
theorem c9_literal_validation :
    (∀ (fuel : Nat) (iter : List JsonToken),
        parse_value (fuel + 1) (some (.boolean "true")) iter = .ok (.boolean true, iter)) ∧
    (∀ (fuel : Nat) (iter : List JsonToken),
        parse_value (fuel + 1) (some (.boolean "false")) iter = .ok (.boolean false, iter)) ∧
    (∀ (fuel : Nat) (iter : List JsonToken) (s : String), s ≠ "true" → s ≠ "false" →
        parse_value (fuel + 1) (some (.boolean s)) iter =
          .error (.InvalidBooleanValue s)) ∧
    (∀ (fuel : Nat) (iter : List JsonToken),
        parse_value (fuel + 1) (some (.null "null")) iter = .ok (.null, iter)) ∧
    (∀ (fuel : Nat) (iter : List JsonToken) (s : String), s ≠ "null" →
        parse_value (fuel + 1) (some (.null s)) iter = .error (.InvalidNullValue s)) := by
  refine ⟨fun fuel iter => rfl, fun fuel iter => rfl, fun fuel iter s h1 h2 => ?_,
    fun fuel iter => rfl, fun fuel iter s h1 => ?_⟩
  · simp [parse_value, h1, h2]
  · simp [parse_value, h1]

/-- C10: the parser does not require the token sequence to be exhausted: the
object and array rules hand back whatever follows the matching closer
untouched, and parser drops it — so OpenBrace CloseBrace Colon parses
successfully to the empty Object even though a Colon token follows the
root. -/
theorem c10_trailing_tokens_ignored :
    parser [.openCurlyBracket, .closeCurlyBracket, .colon] = .ok (.object []) ∧
    (∀ (fuel : Nat) (obj : List (String × JsonValue)) (rest : List JsonToken),
        parse_object (fuel + 1) obj false (.closeCurlyBracket :: rest) =
          .ok (.object obj, rest)) ∧
    (∀ (fuel : Nat) (arr : List JsonValue) (rest : List JsonToken),
        parse_array (fuel + 1) arr false (.closeSquareBracket :: rest) =
          .ok (.array arr, rest)) :=
  ⟨rfl, fun _ _ _ => rfl, fun _ _ _ => rfl⟩

end CrustyJson
